import Mathlib

/-!
# Verification of the pipeline-processor core

A shallow embedding, in Lean 4, of the core of the `pipeline_processor`
repository: the idempotent work-item ledger (`src/db.py`, `src/tasks.py`),
the content-hash-gated embedding stage (`src/tasks.py`,
`src/embeddings.py`), the repo candidate selection (`src/db.py`), and the
fatigue-aware embedding feed (`src/feed/rank.py`, `src/feed/sources.py`).

Modelling conventions:
* Database tables become total functions from their primary key to
  `Option` of the row payload; SQL upserts become pointwise updates.
* Python floats (timestamps, scores) are modelled as real numbers where
  they enter analytic formulas (`Real.exp`), and as rationals where only
  ordering and equality matter.
* External collaborators (the SHA-256 function from `hashlib`, the
  embedding HTTP provider, `datetime.fromisoformat`, the JSON codec) are
  parameters of the definitions that call them; everything the repository
  itself computes is translated directly from the source.
* Work-item `output_json` payloads are modelled structurally (one variant
  per producing stage) instead of as JSON strings.
-/

/-! ## Data model (`src/models.py`) -/

/-- `GalleryImage` from `src/models.py`. -/
structure GalleryImage where
  url : String
  alt : String
  original_url : String
  title : String
  caption : String
  is_highlight : Bool
  taken_at : Int
deriving DecidableEq, Repr

/-- `RepoSubject` from `src/models.py`: a repository snapshot. -/
structure RepoSubject where
  id : String
  name : String
  description : Option String := none
  language : Option String := none
  stargazers_count : Int := 0
  fork : Bool := false
  pushed_at : Option String := none
  updated_at : Option String := none
  topics : List String := []
  extracted_at : Option String := none
  link : Option String := none
  gallery : List GalleryImage := []
  generated_description : Option String := none
  emphasis : Option (List String) := none
  keywords : Option (List String) := none
  kind : Option String := none
deriving DecidableEq, Repr

/-- `UserSubject` from `src/models.py`: a user profile snapshot. -/
structure UserSubject where
  login : String
  avatar_url : Option String := none
  bio : Option String := none
  location : Option String := none
  blog : Option String := none
  theme : Option String := none
  highlighted_repos : List String := []
  is_ghost : Bool := false
deriving DecidableEq, Repr

/-- `ForYouRepoItem` from `src/models.py`: a feed item is a repo snapshot
plus the author username and ghost flag (Python models it by class
inheritance; here the inherited repo fields are kept as one `repo` field). -/
structure ForYouRepoItem where
  repo : RepoSubject
  username : String
  is_ghost : Bool
deriving DecidableEq, Repr

/-- `Recommendation` from `src/models.py`: one exposure-bookkeeping row of
the `recommendations` table (judgment fields of the legacy LLM path are
not modelled). `last_shown_at` is an epoch-seconds float, hence `ℝ`. -/
structure Recommendation where
  times_shown : Int
  last_shown_at : Option ℝ

/-! ## Work-item ledger (`src/db.py`) -/

/-- A ledger key `(kind, subject_type, subject_id)` — the unique key of the
`work_items` table. -/
abbrev WorkKey := String × String × String

/-- One `work_items` row, less its key and surrogate `id` column (the key
lives in the ledger map, and the random `uuid4` row id is never read by the
program). The stage-specific `output_json` payload has type `ω`. -/
structure WorkItem (ω : Type) where
  status : String
  output : Option ω
  processed_at : Option ℝ

/-- The `work_items` table: a map from unique key to row. -/
abbrev Ledger (ω : Type) := WorkKey → Option (WorkItem ω)

/-- `set_work_status` from `src/db.py`: upsert by the unique key.
`processed_at` is set to `now` exactly when the new status is
`"succeeded"`; on conflict the status is overwritten while `output_json`
and `processed_at` are `COALESCE`d (a null argument preserves the stored
value). -/
def set_work_status (db : Ledger ω) (now : ℝ) (kind subject_type subject_id status : String)
    (output : Option ω) : Ledger ω :=
  fun k =>
    if k = (kind, subject_type, subject_id) then
      let pAt : Option ℝ := if status = "succeeded" then some now else none
      match db k with
      | none => some ⟨status, output, pAt⟩
      | some old =>
          some ⟨status, output.orElse (fun _ => old.output),
                pAt.orElse (fun _ => old.processed_at)⟩
    else db k

/-- `reset_user_work_items_to_pending` from `src/db.py`: for the given
kinds, set the user-scoped work items of `username` back to `pending`,
clearing `output_json` and `processed_at`. -/
def reset_user_work_items_to_pending (db : Ledger ω) (username : String)
    (kinds : List String) : Ledger ω :=
  fun k =>
    match db k with
    | none => none
    | some wi =>
        if k.1 ∈ kinds ∧ k.2.1 = "user" ∧ k.2.2 = username then
          some ⟨"pending", none, none⟩
        else some wi

/-- `reset_user_repo_work_items_to_pending` from `src/db.py`: the same for
repo-scoped work items whose subject is one of the user's linked repos
(`user_repo_links`, modelled by `links`). An empty kind list is a no-op. -/
def reset_user_repo_work_items_to_pending (db : Ledger ω) (username : String)
    (kinds : List String) (links : String → List String) : Ledger ω :=
  if kinds.isEmpty then db
  else fun k =>
    match db k with
    | none => none
    | some wi =>
        if k.1 ∈ kinds ∧ k.2.1 = "repo" ∧ k.2.2 ∈ links username then
          some ⟨"pending", none, none⟩
        else some wi

/-- `resetStages` of the external interface (spec §6): the pair of resets
the HTTP layer performs for one actor and one kind list
(`src/api.py`, `restart`): user-scoped reset followed by repo-scoped
reset over the actor's linked repos. -/
def resetStages (db : Ledger ω) (username : String) (kinds : List String)
    (links : String → List String) : Ledger ω :=
  reset_user_repo_work_items_to_pending
    (reset_user_work_items_to_pending db username kinds) username kinds links

/-- A work item is targeted by `resetStages username kinds` when its kind
is listed and its subject is the actor's user row or one of the actor's
linked repos. -/
def TargetedByReset (k : WorkKey) (username : String) (kinds : List String)
    (links : String → List String) : Prop :=
  k.1 ∈ kinds ∧ ((k.2.1 = "user" ∧ k.2.2 = username) ∨
    (k.2.1 = "repo" ∧ k.2.2 ∈ links username))

instance (k : WorkKey) (username : String) (kinds : List String)
    (links : String → List String) :
    Decidable (TargetedByReset k username kinds links) := by
  unfold TargetedByReset; infer_instance

/-! ## The `fetch_profile` stage (`src/tasks.py`) -/

/-- `_already_succeeded` from `src/tasks.py`: the check-then-skip guard
every stage runs before doing any work. -/
def already_succeeded (db : Ledger ω) (kind subject_type subject_id : String) : Bool :=
  match db (kind, subject_type, subject_id) with
  | some row => row.status == "succeeded"
  | none => false

/-- Python's `a or b` on an optional string: `b` when `a` is `None` or
empty (falsy). -/
def pyOrStr (a : Option String) (b : String) : String :=
  match a with
  | some s => if s = "" then b else s
  | none => b

/-- The fields of the GitHub profile JSON that `fetch_profile` reads (the
GitHub client is an external collaborator; its response is a parameter). -/
structure Profile where
  login : Option String := none
  avatar_url : Option String := none
  bio : Option String := none
  location : Option String := none
  blog : Option String := none

/-- `FetchProfileOutput` from `src/models.py`. -/
structure FetchProfileOutput where
  profile_found : Bool
deriving DecidableEq, Repr

/-- The state read and written by `fetch_profile`: the `'user'` rows of the
`subjects` table, the work-item ledger, and a ghost counter of GitHub
client calls made (one per `client.get_user`). -/
structure ProfileState where
  users : String → Option UserSubject
  work : Ledger FetchProfileOutput
  provider_calls : Nat

/-- `fetch_profile` from `src/tasks.py`: skip when already succeeded; else
mark running, call the GitHub client, upsert the profile snapshot
(preserving a pre-existing `is_ghost` flag), and mark succeeded with a
`FetchProfileOutput`. -/
def fetch_profile (profile : Profile) (now : ℝ) (username : String)
    (st : ProfileState) : ProfileState :=
  if already_succeeded st.work "fetch_profile" "user" username then st
  else
    let st1 : ProfileState :=
      { st with work := (set_work_status st.work now "fetch_profile" "user" username
          "running" none) }
    -- `client.get_user(username)`: one network call to the provider
    let st2 : ProfileState := { st1 with provider_calls := st1.provider_calls + 1 }
    let is_ghost : Bool :=
      match st2.users username with
      | some existing => existing.is_ghost
      | none => false
    let user : UserSubject :=
      { login := pyOrStr profile.login username
        avatar_url := profile.avatar_url
        bio := profile.bio
        location := profile.location
        blog := profile.blog
        is_ghost := is_ghost }
    let st3 : ProfileState :=
      { st2 with users := fun u => if u = username then some user else st2.users u }
    { st3 with work := (set_work_status st3.work now "fetch_profile" "user" username
        "succeeded" (some ⟨true⟩)) }

/-! ## Models of the Python string primitives used by the core

Lean's built-in `String.contains`/`splitOn`/`toLower`/`trim` are
implemented on byte positions and do not reduce in the kernel, so the
Python string expressions are modelled on the character list instead. -/

/-- Python `'/' in s`. -/
def pyContainsSlash (s : String) : Bool := s.data.contains '/'

/-- Python `s.split('/')[0]` (also `s.split('/', 1)[0]`): the prefix of
`s` before the first `'/'`, or all of `s` when there is none. -/
def pySplitHead (s : String) : String := ⟨s.data.takeWhile (fun c => c ≠ '/')⟩

/-- Python `s.lower()` (restricted to ASCII case mapping). -/
def pyLower (s : String) : String := ⟨s.data.map Char.toLower⟩

/-- Python `s.strip()`: drop leading and trailing whitespace. -/
def pyStrip (s : String) : String :=
  ⟨((s.data.dropWhile Char.isWhitespace).reverse.dropWhile Char.isWhitespace).reverse⟩

/-! ## Candidate selection (`src/db.py`, `select_best_repo_candidate`) -/

/-- The composite comparison key: lexicographic
`(user_commit_days, external_flag, updated_at)`. -/
abbrev SelKey := ℤ ×ₗ (ℤ ×ₗ ℚ)

/-- The row-dict columns `select_best_repo_candidate` reads from its
candidate rows (as produced by `get_user_repos` /
`get_all_highlighted_repos_batch`). -/
structure CandRow where
  subject_id : Option String := none
  user_commit_days : Option ℤ := none
  updated_at : Option ℚ := none
deriving DecidableEq

/-- `days_val` in `_selection_key` (`src/db.py`): `user_commit_days` with
a non-integer (`None`) mapped to `-1`. -/
def candDaysVal (pair : RepoSubject × CandRow) : ℤ :=
  match pair.2.user_commit_days with
  | some d => d
  | none => -1

/-- `owner` in `_selection_key`: the part of the row's `subject_id` before
the first `'/'`, or `""` when there is no `'/'`. -/
def candOwner (pair : RepoSubject × CandRow) : String :=
  let subj_id := pair.2.subject_id.getD ""
  if pyContainsSlash subj_id then pySplitHead subj_id else ""

/-- `external_flag` in `_selection_key`: `1` when the owner differs from
the author, else `0`. -/
def candExternalFlag (author_username : String) (pair : RepoSubject × CandRow) : ℤ :=
  if candOwner pair ≠ author_username then 1 else 0

/-- `_selection_key` from `src/db.py`: primary `user_commit_days` with
`None → -1`; secondary the external flag (`1` when the owner part of
`subject_id` differs from the author); tertiary `updated_at` (`None → 0`),
compared lexicographically. -/
def selection_key (author_username : String) (pair : RepoSubject × CandRow) : SelKey :=
  toLex (candDaysVal pair,
    toLex (candExternalFlag author_username pair, pair.2.updated_at.getD 0))

/-- Python's `max(xs, key=f)`: the first element attaining the maximal key
(a later element replaces the current best only when strictly greater). -/
def pyMaxBy [LinearOrder κ] (key : α → κ) (x : α) (xs : List α) : α :=
  xs.foldl (fun best c => if key best < key c then c else best) x

/-- `select_best_repo_candidate` from `src/db.py`: `max` over the
composite key (`none` for an empty candidate list, where Python's `max`
would raise). -/
def select_best_repo_candidate (candidates : List (RepoSubject × CandRow))
    (author_username : String) : Option (RepoSubject × CandRow) :=
  match candidates with
  | [] => none
  | x :: xs => some (pyMaxBy (selection_key author_username) x xs)

/-! ## Fatigue scoring (`src/feed/rank.py`) -/

/-- Default `alpha` of `_fatigue_penalty_hours`: hours of penalty per
prior exposure. -/
def fatigueAlpha : ℝ := 18

/-- Default `beta` of `_fatigue_penalty_hours`: magnitude of the
recency penalty. -/
def fatigueBeta : ℝ := 24

/-- Default `tau` of `_fatigue_penalty_hours`: decay constant of the
recency penalty, in hours. -/
def fatigueTau : ℝ := 24

/-- `_fatigue_penalty_hours` from `src/feed/rank.py` at its default
parameters: `alpha * max(0, times_shown) + beta * exp(-hours/tau)`. -/
noncomputable def fatigue_penalty_hours (times_shown : ℤ) (hours_since_last : ℝ) : ℝ :=
  fatigueAlpha * ((max 0 times_shown : ℤ) : ℝ) +
    fatigueBeta * Real.exp (-hours_since_last / fatigueTau)

/-- The divisor converting penalty hours into similarity units
(`240 hours = 1.0 similarity point`, `src/feed/rank.py`). -/
def fatigueDivisor : ℝ := 240

/-- The fatigue-adjusted similarity score computed per candidate in
`_build_feed_embeddings`: `similarity - penalty_hours / 240`. -/
noncomputable def adjusted_score (similarity : ℝ) (times_shown : ℤ)
    (hours_since_last : ℝ) : ℝ :=
  similarity - fatigue_penalty_hours times_shown hours_since_last / fatigueDivisor

/-! ## Feed candidate sources (`src/feed/sources.py`) -/

/-- One row of `get_all_highlighted_repos_batch` as consumed by
`iter_highlight_repo_candidates`: the highlighting author, the highlighted
bare name, the parsed repo snapshot (`none` models a missing `data_json`
or a failed `RepoSubject` validation), and the row-dict columns read by
`select_best_repo_candidate`. -/
structure HighlightRow where
  author_username : String
  highlighted_name : String
  repo : Option RepoSubject
  row : CandRow

/-- A candidate item yielded by a feed source: `(item_type, item_id,
repo_model, author_username, github_timestamp)`. -/
structure FeedCandidate where
  item_type : String
  item_id : String
  repo : RepoSubject
  author_username : String
  github_ts : ℚ

/-- Append `v` to the bucket of `k`, keeping first-insertion key order —
the behaviour of `dict.setdefault(key, []).append(...)` over a Python
(insertion-ordered) dict. -/
def insertGrouped (k : String × String) (v : RepoSubject × CandRow) :
    List ((String × String) × List (RepoSubject × CandRow)) →
      List ((String × String) × List (RepoSubject × CandRow))
  | [] => [(k, [v])]
  | (k', vs) :: rest =>
      if k' = k then (k', vs ++ [v]) :: rest else (k', vs) :: insertGrouped k v rest

/-- The `key_to_candidates` grouping loop of
`iter_highlight_repo_candidates`: group parseable rows by
`(author_username, highlighted_name)`. -/
def groupHighlightRows (rows : List HighlightRow) :
    List ((String × String) × List (RepoSubject × CandRow)) :=
  rows.foldl
    (fun acc r =>
      match r.repo with
      | none => acc
      | some repo => insertGrouped (r.author_username, r.highlighted_name) (repo, r.row) acc)
    []

/-- Truthiness filter on an optional Python string: `None` and `""` are
falsy. -/
def truthyStr : Option String → Option String
  | some s => if s = "" then none else some s
  | none => none

/-- `repo.pushed_at or repo.updated_at` followed by the
`if not ts_str: continue` guard: the first truthy of the two. -/
def pyOrOptStr (a b : Option String) : Option String :=
  (truthyStr a).orElse (fun _ => truthyStr b)

/-- `iter_highlight_repo_candidates` from `src/feed/sources.py`: group the
rows, pick the best candidate per `(author, name)` slot, drop repos owned
by the viewer (case-insensitively, when the repo id contains `'/'`), drop
repos with no parseable timestamp, and yield the rest.
`parseTs` models `datetime.fromisoformat(...).timestamp()` (`none` models
a raised parse error). -/
def iter_highlight_repo_candidates (parseTs : String → Option ℚ)
    (viewer_username : String) (rows : List HighlightRow) : List FeedCandidate :=
  (groupHighlightRows rows).filterMap fun kc =>
    match select_best_repo_candidate kc.2 kc.1.1 with
    | none => none
    | some (repo, _) =>
        if pyContainsSlash repo.id ∧
            pyLower (pySplitHead repo.id) = pyLower viewer_username then
          none
        else
          match pyOrOptStr repo.pushed_at repo.updated_at with
          | none => none
          | some ts_str =>
              match parseTs ts_str with
              | none => none
              | some ts => some ⟨"repo", repo.id, repo, kc.1.1, ts⟩

/-! ## Exposure bookkeeping (`src/db.py`, `recommendations` table) -/

/-- The `recommendations` table keyed by `(user_id, item_type, item_id)`. -/
abbrev RecStore := String → String → String → Option Recommendation

/-- `bump_recommendation_exposures` from `src/db.py`: for each shown
`(item_type, item_id)`, insert `(times_shown = 1, last_shown_at = now)` or,
on conflict, `times_shown := COALESCE(times_shown, 0) + 1` and
`last_shown_at := now`. -/
def bump_recommendation_exposures (recs : RecStore) (user_id : String)
    (items : List (String × String)) (now : ℝ) : RecStore :=
  items.foldl
    (fun acc it =>
      fun u t i =>
        if u = user_id ∧ t = it.1 ∧ i = it.2 then
          match acc u t i with
          | none => some ⟨1, some now⟩
          | some r => some ⟨r.times_shown + 1, some now⟩
        else acc u t i)
    recs

/-! ## The embedding-based feed build (`src/feed/rank.py`) -/

/-- `hours_since` in `_build_feed_embeddings`:
`(now - last_shown_at) / 3600 if last_shown_at else 1e9` (a stored
`0.0` is falsy, like `None`). -/
noncomputable def pyHoursSince (now : ℝ) (last_shown_at : Option ℝ) : ℝ :=
  match last_shown_at with
  | none => 1000000000
  | some t => if t = 0 then 1000000000 else (now - t) / 3600

/-- One entry of the `ranked` list of `_build_feed_embeddings`:
`(adjusted_score, feed_item, item_type, item_id)`. -/
structure RankedEntry where
  score : ℝ
  item : ForYouRepoItem
  item_type : String
  item_id : String

/-- Stable insertion into a descending-sorted list: the inserted element
goes before every element whose key is not strictly greater. -/
noncomputable def insertDescBy (key : α → ℝ) (x : α) : List α → List α
  | [] => [x]
  | y :: ys => if key x < key y then y :: insertDescBy key x ys else x :: y :: ys

/-- `ranked.sort(key=lambda t: t[0], reverse=True)`: a stable descending
sort by key. Stability plus the descending order determine the output
uniquely, so this insertion sort computes exactly Python's `list.sort`. -/
noncomputable def sortDescBy (key : α → ℝ) : List α → List α
  | [] => []
  | x :: xs => insertDescBy key x (sortDescBy key xs)

/-- The dedup loop of `_build_feed_embeddings`: keep the first (hence
highest-scoring) occurrence of each `item_id`, given ids already `seen`. -/
def dedupByItemId : List RankedEntry → List String → List RankedEntry
  | [], _ => []
  | e :: es, seen =>
      if e.item_id ∈ seen then dedupByItemId es seen
      else e :: dedupByItemId es (e.item_id :: seen)

/-- What a feed serve returns and writes: the served page, the updated
`recommendations` table, and the `(item_type, item_id)` keys of the page
(`shown_keys` in the source). -/
structure FeedResult where
  items : List ForYouRepoItem
  recs : RecStore
  shown_keys : List (String × String)

/-- The `ranked` loop of `_build_feed_embeddings`
(`src/feed/rank.py`): look up each candidate's similarity score (the
`get_repos_similarity_to_user` dict is a parameter, a key-value list),
skip candidates without one, read the candidate's exposure record, and
compute its fatigue-adjusted score. -/
noncomputable def feedRankedEntries (similarity_scores : List (String × ℝ))
    (recs : RecStore) (viewer_username : String) (now : ℝ)
    (candidates : List FeedCandidate) : List RankedEntry :=
  candidates.filterMap fun c =>
    match similarity_scores.lookup c.item_id with
    | none => none
    | some similarity =>
        let recOpt := recs viewer_username c.item_type c.item_id
        let times_shown : ℤ := match recOpt with
          | some r => r.times_shown
          | none => 0
        let last_shown_at : Option ℝ := match recOpt with
          | some r => r.last_shown_at
          | none => none
        let hours_since := pyHoursSince now last_shown_at
        some (⟨adjusted_score similarity times_shown hours_since,
               ⟨c.repo, c.author_username, false⟩, c.item_type, c.item_id⟩ : RankedEntry)

/-- Sort descending, dedup by `item_id`, take the first `limit`: the
`top` list of `_build_feed_embeddings`. -/
noncomputable def feedPage (limit : ℕ) (ranked : List RankedEntry) : List RankedEntry :=
  (dedupByItemId (sortDescBy (fun e => e.score) ranked) []).take limit

/-- `_build_feed_embeddings` continued: compose the stages and bump
exposures for the served page only. -/
noncomputable def build_feed_embeddings (parseTs : String → Option ℚ)
    (rows : List HighlightRow) (similarity_scores : List (String × ℝ))
    (recs : RecStore) (viewer_username : String) (limit : ℕ) (now : ℝ) : FeedResult :=
  let candidates := iter_highlight_repo_candidates parseTs viewer_username rows
  if candidates.isEmpty then ⟨[], recs, []⟩
  else if similarity_scores.isEmpty then ⟨[], recs, []⟩
  else
    let top := feedPage limit
      (feedRankedEntries similarity_scores recs viewer_username now candidates)
    let items := top.map (fun e => e.item)
    let shown_keys := top.map (fun e => (e.item_type, e.item_id))
    if items.isEmpty then ⟨items, recs, shown_keys⟩
    else ⟨items, bump_recommendation_exposures recs viewer_username shown_keys now, shown_keys⟩

/-! ## The embedding stage (`src/tasks.py`, `src/embeddings.py`) -/

/-- `format_repo_for_embedding` from `src/embeddings.py`: join the truthy
parts `name`, stripped `description`, stripped `generated_description`,
`language` with newlines. -/
def format_repo_for_embedding (repo : RepoSubject) : String :=
  let parts : List String :=
    (if repo.name ≠ "" then [repo.name] else []) ++
    (match truthyStr repo.description with
      | some d => [pyStrip d]
      | none => []) ++
    (match truthyStr repo.generated_description with
      | some d => [pyStrip d]
      | none => []) ++
    (match truthyStr repo.language with
      | some l => [l]
      | none => [])
  String.intercalate "\n" parts

/-- The structured `output_json` payload of the embedding work-item kinds:
`{"content_hash": .., "embedding_dim": ..}` on success,
`{"reason": ..}` on failure. -/
inductive EmbedOutput where
  | success (content_hash : String) (embedding_dim : Nat)
  | failure (reason : String)
deriving DecidableEq, Repr

/-- `json.loads(output_json).get("content_hash")`: present only on the
success payload. -/
def contentHashOf : EmbedOutput → Option String
  | .success h _ => some h
  | .failure _ => none

/-- One entry of the `repos_to_embed` list:
`(repo_id, embedding_content, content_hash)`. -/
structure EmbedEntry where
  rid : String
  content : String
  chash : String
deriving DecidableEq, Repr

/-- The state read and written by `_embed_repos_batch_generic`: the repo
snapshots of one `subject_type`, their stored embedding vectors, the
work-item ledger for one `work_kind`, and a ghost trace of every
`set_work_status` call (key and status written), used to state transition
properties. -/
structure EmbedState where
  subjects : String → Option RepoSubject
  embeddings : String → Option (List ℚ)
  work : Ledger EmbedOutput
  trace : List (WorkKey × String)

/-- `set_work_status` as invoked by the embedding stage, with the call
recorded in the ghost trace. -/
def recordSetWork (now : ℝ) (kind subject_type rid status : String)
    (out : Option EmbedOutput) (st : EmbedState) : EmbedState :=
  { st with
    work := set_work_status st.work now kind subject_type rid status out
    trace := st.trace ++ [((kind, subject_type, rid), status)] }

/-- The cache-hit test of `_embed_repos_batch_generic`: a work item exists,
has status `succeeded`, carries an output payload, and the stored
`content_hash` equals the hash of the current text. -/
def embedCacheHit (work : Ledger EmbedOutput) (kind subject_type rid h : String) : Bool :=
  match work (kind, subject_type, rid) with
  | none => false
  | some wi =>
      wi.status == "succeeded" &&
        match wi.output with
        | some out => contentHashOf out == some h
        | none => false

/-- The first loop of `_embed_repos_batch_generic`: collect
`repos_to_embed`, skipping missing subjects and cache hits. `sha256`
models `compute_embedding_hash` (SHA-256 of the formatted text). -/
def collectToEmbed (sha256 : String → String) (st : EmbedState)
    (kind subject_type : String) (repo_ids : List String) : List EmbedEntry :=
  repo_ids.filterMap fun rid =>
    match st.subjects rid with
    | none => none
    | some repo =>
        let content := format_repo_for_embedding repo
        let h := sha256 content
        if embedCacheHit st.work kind subject_type rid h then none
        else some ⟨rid, content, h⟩

/-- Structural worker for `chunks20`: the fuel is an upper bound on the
list length, so the `0, _ :: _` arm is never reached in `chunks20`. -/
def chunks20Fuel : Nat → List α → List (List α)
  | _, [] => []
  | 0, _ => []
  | n + 1, x :: xs => (x :: xs.take 19) :: chunks20Fuel n (xs.drop 19)

/-- Split a list into chunks of `BATCH_SIZE = 20`, in order — the
`range(0, len(repos_to_embed), BATCH_SIZE)` loop structure of
`_embed_repos_batch_generic`. -/
def chunks20 (l : List α) : List (List α) := chunks20Fuel l.length l

/-- One iteration of the batch loop of `_embed_repos_batch_generic`: mark
every batch member `running`, call the provider once on the batch texts
(`get_embeddings_batch`; `Except.error` models a raised exception), then
either mark every member `failed` with the same reason, or store each
vector and mark each member `succeeded` with its content hash and
dimension. -/
def processBatch (provider : List String → Except String (List (List ℚ)))
    (now : ℝ) (kind subject_type : String) (st : EmbedState)
    (batch : List EmbedEntry) : EmbedState :=
  let st1 := batch.foldl
    (fun s e => recordSetWork now kind subject_type e.rid "running" none s) st
  match provider (batch.map (fun e => e.content)) with
  | .error err =>
      batch.foldl
        (fun s e => recordSetWork now kind subject_type e.rid "failed"
          (some (.failure ("batch_api_error: " ++ err))) s)
        st1
  | .ok embeddings =>
      (batch.zip embeddings).foldl
        (fun s p =>
          let s1 : EmbedState :=
            { s with embeddings := fun r => if r = p.1.rid then some p.2 else s.embeddings r }
          recordSetWork now kind subject_type p.1.rid "succeeded"
            (some (.success p.1.chash p.2.length)) s1)
        st1

/-- `_embed_repos_batch_generic` from `src/tasks.py`: collect the cache
misses, process them in batches of 20, and also return the list of
batches sent to the provider (exactly one provider call per returned
batch). -/
def embed_repos_batch_generic (sha256 : String → String)
    (provider : List String → Except String (List (List ℚ)))
    (kind subject_type : String) (repo_ids : List String) (now : ℝ)
    (st : EmbedState) : EmbedState × List (List EmbedEntry) :=
  let toEmbed := collectToEmbed sha256 st kind subject_type repo_ids
  if toEmbed.isEmpty then (st, [])
  else
    let batches := chunks20 toEmbed
    (batches.foldl (processBatch provider now kind subject_type) st, batches)

/-- The content hash recorded in a work item's output payload, if any
(`json.loads(row.output_json).get("content_hash")` on a stored row). -/
def storedContentHash (wi : WorkItem EmbedOutput) : Option String :=
  wi.output.bind contentHashOf

/-! ## Concrete data used by witnesses and counterexamples -/

/-- A stand-in for the SHA-256 collaborator in concrete runs: the identity
function on texts (any function of the text works for the machine). -/
def hashId : String → String := fun s => s

/-- A concrete embedding provider that embeds every text as `[0]`. -/
def okProvider : List String → Except String (List (List ℚ)) :=
  fun ts => .ok (ts.map fun _ => ([0] : List ℚ))

/-- A concrete embedding provider whose batch call always fails. -/
def errProvider : List String → Except String (List (List ℚ)) :=
  fun _ => .error "boom"

/-- A concrete embed-stage state: one repo subject `"r"` whose formatted
text is `"x"`, and a `succeeded` `embed_repo` work item recording the
stale content hash `"OLD"` (the current `hashId` hash is `"x"`). -/
def embedStaleState : EmbedState where
  subjects := fun r => if r = "r" then some { id := "r", name := "x" } else none
  embeddings := fun _ => none
  work := fun k =>
    if k = ("embed_repo", "repo", "r") then
      some ⟨"succeeded", some (.success "OLD" 1), some 1⟩
    else none
  trace := []

/-- A concrete embed-stage state like `embedStaleState` but whose work
item records the hash `"x"` of the current text: a cache hit. -/
def embedFreshState : EmbedState where
  subjects := fun r => if r = "r" then some { id := "r", name := "x" } else none
  embeddings := fun _ => none
  work := fun k =>
    if k = ("embed_repo", "repo", "r") then
      some ⟨"succeeded", some (.success "x" 1), some 1⟩
    else none
  trace := []

/-- A candidate repo owned by author `alice` (external flag 0), with
`user_commit_days = 5`. -/
def candOwned : RepoSubject × CandRow :=
  ({ id := "alice/x", name := "x" },
   { subject_id := some "alice/x", user_commit_days := some 5, updated_at := some 3 })

/-- A candidate repo external to author `alice` (external flag 1), with
`user_commit_days = 5`. -/
def candExternal : RepoSubject × CandRow :=
  ({ id := "bob/x", name := "x" },
   { subject_id := some "bob/x", user_commit_days := some 5, updated_at := some 2 })

/-! ## Helper lemmas: Python `max` returns a maximal element -/

lemma pyMaxBy_cons [LinearOrder κ] (key : α → κ) (x y : α) (ys : List α) :
    pyMaxBy key x (y :: ys) = pyMaxBy key (if key x < key y then y else x) ys := by
  simp [pyMaxBy, List.foldl_cons]

lemma pyMaxBy_mem [LinearOrder κ] (key : α → κ) (x : α) (xs : List α) :
    pyMaxBy key x xs ∈ x :: xs := by
  induction xs generalizing x with
  | nil => simp [pyMaxBy]
  | cons y ys ih =>
      rw [pyMaxBy_cons]
      by_cases hxy : key x < key y
      · rw [if_pos hxy]
        rcases List.mem_cons.mp (ih y) with h | h <;> simp [h]
      · rw [if_neg hxy]
        rcases List.mem_cons.mp (ih x) with h | h <;> simp [h]

lemma pyMaxBy_le_key [LinearOrder κ] (key : α → κ) (x : α) (xs : List α) :
    ∀ c ∈ x :: xs, key c ≤ key (pyMaxBy key x xs) := by
  induction xs generalizing x with
  | nil => intro c hc; simp at hc; simp [pyMaxBy, hc]
  | cons y ys ih =>
      intro c hc
      rw [pyMaxBy_cons]
      have hz : key x ≤ key (if key x < key y then y else x) ∧
          key y ≤ key (if key x < key y then y else x) := by
        by_cases hxy : key x < key y
        · simp [hxy, le_of_lt hxy]
        · simp [hxy, le_of_not_lt hxy]
      have hzin := ih (if key x < key y then y else x)
      rcases List.mem_cons.mp hc with rfl | hc'
      · exact le_trans hz.1 (hzin _ (by simp))
      · rcases List.mem_cons.mp hc' with rfl | hc''
        · exact le_trans hz.2 (hzin _ (by simp))
        · exact hzin c (by simp [hc''])

/-! ## C1 -/

/-- C1: a `succeeded` work item makes re-invoking its producing stage a
no-op. Re-running `fetch_profile` for a username whose
`(fetch_profile, user, username)` work item has status `succeeded`
leaves the whole state unchanged: in particular no GitHub client call is
made (`provider_calls` is part of the state) and the work item's output
and `processed_at` are untouched. -/
theorem fetch_profile_idempotent_when_succeeded (profile : Profile) (now : ℝ)
    (username : String) (st : ProfileState) (wi : WorkItem FetchProfileOutput)
    (hrow : st.work ("fetch_profile", "user", username) = some wi)
    (hst : wi.status = "succeeded") :
    fetch_profile profile now username st = st := by
  unfold fetch_profile
  have hguard : already_succeeded st.work "fetch_profile" "user" username = true := by
    simp [already_succeeded, hrow, hst]
  simp [hguard]

/-- Witness for C1 at a concrete state. -/
theorem fetch_profile_idempotent_when_succeeded_witness :
    fetch_profile {} 7 "alice"
      ⟨fun _ => none,
       fun k => if k = ("fetch_profile", "user", "alice") then
         some ⟨"succeeded", some ⟨true⟩, some 1⟩ else none,
       0⟩ =
      ⟨fun _ => none,
       fun k => if k = ("fetch_profile", "user", "alice") then
         some ⟨"succeeded", some ⟨true⟩, some 1⟩ else none,
       0⟩ :=
  fetch_profile_idempotent_when_succeeded {} 7 "alice" _
    ⟨"succeeded", some ⟨true⟩, some 1⟩ (by simp) rfl

/-! ## C4 -/

/-- C4: `select_best_repo_candidate` on a non-empty candidate list returns
a member whose composite key `(user_commit_days with None → -1,
external_flag, updated_at)` is maximal (lexicographically); and for two
candidates with equal metric and external flags `0` and `1`, the external
one is selected in either input order. -/
theorem select_best_repo_candidate_spec (author : String)
    (x : RepoSubject × CandRow) (xs : List (RepoSubject × CandRow))
    (c₁ c₂ : RepoSubject × CandRow)
    (hdays : candDaysVal c₁ = candDaysVal c₂)
    (hf₁ : candExternalFlag author c₁ = 0)
    (hf₂ : candExternalFlag author c₂ = 1) :
    (∃ m, select_best_repo_candidate (x :: xs) author = some m ∧ m ∈ x :: xs ∧
      ∀ c ∈ x :: xs, selection_key author c ≤ selection_key author m) ∧
    select_best_repo_candidate [c₁, c₂] author = some c₂ ∧
    select_best_repo_candidate [c₂, c₁] author = some c₂ := by
  have hkey12 : selection_key author c₁ < selection_key author c₂ := by
    unfold selection_key
    rw [Prod.Lex.lt_iff]
    right
    refine ⟨hdays, ?_⟩
    rw [Prod.Lex.lt_iff]
    left
    rw [hf₁, hf₂]
    norm_num
  refine ⟨⟨pyMaxBy (selection_key author) x xs, rfl, pyMaxBy_mem _ x xs,
      pyMaxBy_le_key _ x xs⟩, ?_, ?_⟩
  · show some (pyMaxBy (selection_key author) c₁ [c₂]) = some c₂
    rw [pyMaxBy_cons]
    simp [hkey12, pyMaxBy]
  · show some (pyMaxBy (selection_key author) c₂ [c₁]) = some c₂
    rw [pyMaxBy_cons]
    have : ¬ selection_key author c₂ < selection_key author c₁ := not_lt_of_gt hkey12
    simp [this, pyMaxBy]

/-- Witness for C4: two candidates with equal `user_commit_days = 5`,
`candOwned` owned by the author `alice` (flag 0) and `candExternal`
external (flag 1); the external one is selected in both orders. -/
theorem select_best_repo_candidate_spec_witness :
    (∃ m, select_best_repo_candidate [candOwned, candExternal] "alice" = some m ∧
      m ∈ [candOwned, candExternal] ∧
      ∀ c ∈ [candOwned, candExternal],
        selection_key "alice" c ≤ selection_key "alice" m) ∧
    select_best_repo_candidate [candOwned, candExternal] "alice" = some candExternal ∧
    select_best_repo_candidate [candExternal, candOwned] "alice" = some candExternal :=
  select_best_repo_candidate_spec "alice" candOwned [candExternal] candOwned candExternal
    (by decide) (by decide) (by decide)

/-! ## C5 -/

/-- C5: for a fixed similarity, the fatigue-adjusted score is strictly
decreasing in `times_shown` (over the actual non-negative counts) and
strictly increasing in `hours_since_last_shown ≥ 0`, with the source's
constants `alpha = 18`, `beta = 24`, `tau = 24`, divisor `240`. -/
theorem adjusted_score_fatigue_monotone (sim : ℝ) (t t₁ t₂ : ℤ) (h h₁ h₂ : ℝ)
    (ht₀ : 0 ≤ t₁) (ht : t₁ < t₂) (hh₀ : 0 ≤ h₁) (hh : h₁ < h₂) :
    adjusted_score sim t₂ h < adjusted_score sim t₁ h ∧
    adjusted_score sim t h₁ < adjusted_score sim t h₂ := by
  have hdiv : (0 : ℝ) < fatigueDivisor := by norm_num [fatigueDivisor]
  constructor
  · have hpen : fatigue_penalty_hours t₁ h < fatigue_penalty_hours t₂ h := by
      unfold fatigue_penalty_hours
      have hmax : (max 0 t₁ : ℤ) < (max 0 t₂ : ℤ) := by omega
      have : ((max 0 t₁ : ℤ) : ℝ) < ((max 0 t₂ : ℤ) : ℝ) := by exact_mod_cast hmax
      have halpha : (0 : ℝ) < fatigueAlpha := by norm_num [fatigueAlpha]
      have := mul_lt_mul_of_pos_left this halpha
      linarith
    have := (div_lt_div_iff_of_pos_right hdiv).mpr hpen
    unfold adjusted_score
    linarith
  · have hpen : fatigue_penalty_hours t h₂ < fatigue_penalty_hours t h₁ := by
      unfold fatigue_penalty_hours
      have htau : (0 : ℝ) < fatigueTau := by norm_num [fatigueTau]
      have hexp : Real.exp (-h₂ / fatigueTau) < Real.exp (-h₁ / fatigueTau) := by
        rw [Real.exp_lt_exp]
        have : -h₂ < -h₁ := by linarith
        exact (div_lt_div_iff_of_pos_right htau).mpr this
      have hbeta : (0 : ℝ) < fatigueBeta := by norm_num [fatigueBeta]
      have := mul_lt_mul_of_pos_left hexp hbeta
      linarith
    have := (div_lt_div_iff_of_pos_right hdiv).mpr hpen
    unfold adjusted_score
    linarith

/-- Witness for C5 at similarity `1`, counts `0 < 1`, hours `2 < 3`. -/
theorem adjusted_score_fatigue_monotone_witness :
    adjusted_score 1 1 5 < adjusted_score 1 0 5 ∧
    adjusted_score 1 0 2 < adjusted_score 1 0 3 :=
  adjusted_score_fatigue_monotone 1 0 0 1 5 2 3 (by norm_num) (by norm_num)
    (by norm_num) (by norm_num)

/-! ## C6 -/

/-- C6: `set_work_status` on an existing key overwrites `status`, keeps
`output` and `processed_at` when the caller passes null, overwrites
`output` when a value is supplied, and supplies `processed_at = now`
exactly for status `succeeded`; every other key is untouched. -/
theorem set_work_status_upsert_semantics (db : Ledger ω) (now : ℝ)
    (kind subject_type subject_id status : String) (out : Option ω)
    (old : WorkItem ω)
    (hold : db (kind, subject_type, subject_id) = some old) :
    ∃ newRow,
      set_work_status db now kind subject_type subject_id status out
        (kind, subject_type, subject_id) = some newRow ∧
      newRow.status = status ∧
      (out = none → newRow.output = old.output) ∧
      (∀ v, out = some v → newRow.output = some v) ∧
      (status = "succeeded" → newRow.processed_at = some now) ∧
      (status ≠ "succeeded" → newRow.processed_at = old.processed_at) ∧
      ∀ k, k ≠ (kind, subject_type, subject_id) →
        set_work_status db now kind subject_type subject_id status out k = db k := by
  refine ⟨⟨status, out.orElse (fun _ => old.output),
      (if status = "succeeded" then some now else none).orElse
        (fun _ => old.processed_at)⟩, ?_, rfl, ?_, ?_, ?_, ?_, ?_⟩
  · simp [set_work_status, hold]
  · intro hout; simp [hout, Option.orElse]
  · intro v hout; simp [hout, Option.orElse]
  · intro hs; simp [hs, Option.orElse]
  · intro hs; simp [hs, Option.orElse]
  · intro k hk
    unfold set_work_status
    rw [if_neg hk]

/-- Witness for C6: transitioning an existing `running` row to
`succeeded` with a null output. -/
theorem set_work_status_upsert_semantics_witness :
    ∃ newRow,
      @set_work_status FetchProfileOutput
        (fun k => if k = ("fetch_profile", "user", "alice") then
          some ⟨"running", some ⟨true⟩, some 1⟩ else none)
        9 "fetch_profile" "user" "alice" "succeeded" none
        ("fetch_profile", "user", "alice") = some newRow ∧
      newRow.status = "succeeded" ∧
      ((none : Option FetchProfileOutput) = none →
        newRow.output = (some ⟨true⟩ : Option FetchProfileOutput)) ∧
      (∀ v, (none : Option FetchProfileOutput) = some v → newRow.output = some v) ∧
      ("succeeded" = "succeeded" → newRow.processed_at = some 9) ∧
      (("succeeded" : String) ≠ "succeeded" → newRow.processed_at = some 1) ∧
      ∀ k, k ≠ ("fetch_profile", "user", "alice") →
        @set_work_status FetchProfileOutput
          (fun k => if k = ("fetch_profile", "user", "alice") then
            some ⟨"running", some ⟨true⟩, some 1⟩ else none)
          9 "fetch_profile" "user" "alice" "succeeded" none k =
          (fun k => if k = ("fetch_profile", "user", "alice") then
            some (⟨"running", some ⟨true⟩, some 1⟩ : WorkItem FetchProfileOutput)
            else none) k :=
  set_work_status_upsert_semantics _ 9 "fetch_profile" "user" "alice" "succeeded"
    none ⟨"running", some ⟨true⟩, some 1⟩ (by simp)

/-! ## C7 -/

/-- C7: `resetStages` sets every existing targeted work item (a listed
kind whose subject is the actor's user row or one of the actor's linked
repos) to `pending` with null `output` and `processed_at`, and leaves
every non-targeted work item unchanged. -/
theorem resetStages_frame (db : Ledger ω) (username : String)
    (kinds : List String) (links : String → List String) (k : WorkKey) :
    resetStages db username kinds links k =
      match db k with
      | none => none
      | some wi =>
          if TargetedByReset k username kinds links then some ⟨"pending", none, none⟩
          else some wi := by
  simp only [resetStages, reset_user_repo_work_items_to_pending,
    reset_user_work_items_to_pending, TargetedByReset]
  by_cases hempty : kinds.isEmpty
  · have hnil : kinds = [] := List.isEmpty_iff.mp hempty
    subst hnil
    simp only [hempty, if_true]
    cases hdb : db k <;> simp [reset_user_work_items_to_pending, hdb]
  · simp only [hempty, if_false, Bool.false_eq_true]
    cases hdb : db k with
    | none => simp [hdb]
    | some wi =>
        simp only [hdb]
        by_cases hU : k.1 ∈ kinds ∧ k.2.1 = "user" ∧ k.2.2 = username
        · have hR : ¬(k.1 ∈ kinds ∧ k.2.1 = "repo" ∧ k.2.2 ∈ links username) := by
            rintro ⟨-, hrepo, -⟩
            exact absurd (hU.2.1 ▸ hrepo) (by simp)
          simp [hU, hR]
        · by_cases hR : k.1 ∈ kinds ∧ k.2.1 = "repo" ∧ k.2.2 ∈ links username
          · simp [hU, hR]
          · have hT : ¬(k.1 ∈ kinds ∧ ((k.2.1 = "user" ∧ k.2.2 = username) ∨
                (k.2.1 = "repo" ∧ k.2.2 ∈ links username))) := by tauto
            simp [hU, hR, hT]

/-! ## Helper lemmas: exposure bumping and page dedup -/

lemma bump_cons (recs : RecStore) (user : String) (it : String × String)
    (rest : List (String × String)) (now : ℝ) :
    bump_recommendation_exposures recs user (it :: rest) now =
      bump_recommendation_exposures
        (fun u t i =>
          if u = user ∧ t = it.1 ∧ i = it.2 then
            match recs u t i with
            | none => some ⟨1, some now⟩
            | some r => some ⟨r.times_shown + 1, some now⟩
          else recs u t i) user rest now := rfl

lemma bump_apply_skip (recs : RecStore) (user : String)
    (items : List (String × String)) (now : ℝ) (u t i : String)
    (h : u ≠ user ∨ (t, i) ∉ items) :
    bump_recommendation_exposures recs user items now u t i = recs u t i := by
  induction items generalizing recs with
  | nil => rfl
  | cons it rest ih =>
      have hcond : ¬(u = user ∧ t = it.1 ∧ i = it.2) := by
        rintro ⟨rfl, h2, h3⟩
        rcases h with h | h
        · exact h rfl
        · exact h (by rw [h2, h3]; simp)
      have h' : u ≠ user ∨ (t, i) ∉ rest := by
        rcases h with h | h
        · exact Or.inl h
        · exact Or.inr (fun hm => h (List.mem_cons_of_mem _ hm))
      rw [bump_cons, ih _ h', if_neg hcond]

lemma bump_apply_mem (recs : RecStore) (user : String)
    (items : List (String × String)) (now : ℝ) (t i : String)
    (hnd : items.Nodup) (hmem : (t, i) ∈ items) :
    bump_recommendation_exposures recs user items now user t i =
      some ⟨(match recs user t i with
        | some r => r.times_shown
        | none => 0) + 1, some now⟩ := by
  induction items generalizing recs with
  | nil => cases hmem
  | cons it rest ih =>
      rw [bump_cons]
      by_cases hhead : (t, i) = it
      · have hnotin : (t, i) ∉ rest := by
          rw [hhead]; exact (List.nodup_cons.mp hnd).1
        rw [bump_apply_skip _ _ _ _ _ _ _ (Or.inr hnotin)]
        have hcond : user = user ∧ t = it.1 ∧ i = it.2 :=
          ⟨rfl, by rw [← hhead], by rw [← hhead]⟩
        rw [if_pos hcond]
        cases hrec : recs user t i <;> simp [hrec]
      · have hmem' : (t, i) ∈ rest := by
          rcases List.mem_cons.mp hmem with h | h
          · exact absurd h hhead
          · exact h
        have hcond : ¬(user = user ∧ t = it.1 ∧ i = it.2) := by
          rintro ⟨-, h2, h3⟩
          exact hhead (by rw [h2, h3])
        rw [ih _ (List.nodup_cons.mp hnd).2 hmem', if_neg hcond]

lemma bump_spec (recs : RecStore) (user : String)
    (items : List (String × String)) (now : ℝ) (hnd : items.Nodup) (u t i : String) :
    bump_recommendation_exposures recs user items now u t i =
      if u = user ∧ (t, i) ∈ items then
        some ⟨(match recs u t i with
          | some r => r.times_shown
          | none => 0) + 1, some now⟩
      else recs u t i := by
  by_cases hc : u = user ∧ (t, i) ∈ items
  · rw [if_pos hc]
    rcases hc with ⟨rfl, hmem⟩
    exact bump_apply_mem recs u items now t i hnd hmem
  · rw [if_neg hc]
    refine bump_apply_skip recs user items now u t i ?_
    tauto

lemma dedupByItemId_nodup_and_notin (l : List RankedEntry) (seen : List String) :
    ((dedupByItemId l seen).map (fun e => e.item_id)).Nodup ∧
    ∀ e ∈ dedupByItemId l seen, e.item_id ∉ seen := by
  induction l generalizing seen with
  | nil => simp [dedupByItemId]
  | cons e es ih =>
      by_cases hs : e.item_id ∈ seen
      · simpa [dedupByItemId, hs] using ih seen
      · have ih' := ih (e.item_id :: seen)
        refine ⟨?_, ?_⟩
        · rw [show dedupByItemId (e :: es) seen =
              e :: dedupByItemId es (e.item_id :: seen) by simp [dedupByItemId, hs]]
          rw [List.map_cons, List.nodup_cons]
          refine ⟨?_, ih'.1⟩
          intro hmem
          rcases List.mem_map.mp hmem with ⟨x, hx, hxid⟩
          exact ih'.2 x hx (by rw [hxid]; exact List.mem_cons_self _ _)
        · intro x hx
          rw [show dedupByItemId (e :: es) seen =
              e :: dedupByItemId es (e.item_id :: seen) by simp [dedupByItemId, hs]] at hx
          rcases List.mem_cons.mp hx with rfl | hx'
          · exact hs
          · exact fun hmem => ih'.2 x hx' (List.mem_cons_of_mem _ hmem)

lemma feedPage_keys_nodup (limit : ℕ) (ranked : List RankedEntry) :
    ((feedPage limit ranked).map (fun e => (e.item_type, e.item_id))).Nodup := by
  have h1 : ((dedupByItemId (sortDescBy (fun e => e.score) ranked) []).map
      (fun e => e.item_id)).Nodup :=
    (dedupByItemId_nodup_and_notin _ _).1
  have h2 : ((feedPage limit ranked).map (fun e => e.item_id)).Nodup :=
    h1.sublist ((List.take_sublist _ _).map _)
  have heq : (fun e : RankedEntry => e.item_id) =
      (fun p : String × String => p.2) ∘ (fun e => (e.item_type, e.item_id)) := rfl
  rw [heq, ← List.map_map] at h2
  exact h2.of_map _

/-! ## C2 -/

/-- C2: one feed serve bumps the exposure counter by exactly one, and sets
`last_shown_at = now`, for precisely the viewer's keys in the served page
(`shown_keys`), and leaves every other exposure row — in particular every
candidate evaluated but not served, and every other viewer — unchanged.
Because the page is deduplicated by `item_id` before the bump, this holds
regardless of how many candidate entries produced the same item. -/
theorem build_feed_embeddings_exposure_exactly_once (parseTs : String → Option ℚ)
    (rows : List HighlightRow) (similarity_scores : List (String × ℝ))
    (recs : RecStore) (viewer_username : String) (limit : ℕ) (now : ℝ)
    (u t i : String) :
    (build_feed_embeddings parseTs rows similarity_scores recs
        viewer_username limit now).recs u t i =
      if u = viewer_username ∧ (t, i) ∈
          (build_feed_embeddings parseTs rows similarity_scores recs
            viewer_username limit now).shown_keys then
        some ⟨(match recs u t i with
          | some r => r.times_shown
          | none => 0) + 1, some now⟩
      else recs u t i := by
  simp only [build_feed_embeddings]
  by_cases h1 : (iter_highlight_repo_candidates parseTs viewer_username rows).isEmpty
  · simp [h1]
  · by_cases h2 : similarity_scores.isEmpty
    · simp [h1, h2]
    · simp only [h1, h2, Bool.false_eq_true, if_false]
      by_cases h3 : ((feedPage limit (feedRankedEntries similarity_scores recs
          viewer_username now (iter_highlight_repo_candidates parseTs
            viewer_username rows))).map (fun e => e.item)).isEmpty
      · have htop : feedPage limit (feedRankedEntries similarity_scores recs
            viewer_username now (iter_highlight_repo_candidates parseTs
              viewer_username rows)) = [] := by
          have := List.isEmpty_iff.mp h3
          rcases hpage : feedPage limit (feedRankedEntries similarity_scores recs
            viewer_username now (iter_highlight_repo_candidates parseTs
              viewer_username rows)) with _ | ⟨x, xs⟩
          · rfl
          · rw [hpage] at this; cases this
        simp [h3, htop]
      · simp only [h3, Bool.false_eq_true, if_false]
        exact bump_spec recs viewer_username _ now (feedPage_keys_nodup _ _) u t i

/-! ## Helper lemmas: membership through the ranking pipeline -/

lemma mem_insertDescBy (key : α → ℝ) (x a : α) (l : List α) :
    a ∈ insertDescBy key x l ↔ a = x ∨ a ∈ l := by
  induction l with
  | nil => simp [insertDescBy]
  | cons y ys ih =>
      rw [insertDescBy]
      by_cases h : key x < key y
      · rw [if_pos h]
        simp only [List.mem_cons, ih]
        tauto
      · rw [if_neg h]
        simp only [List.mem_cons]

lemma mem_sortDescBy (key : α → ℝ) (a : α) (l : List α) :
    a ∈ sortDescBy key l ↔ a ∈ l := by
  induction l with
  | nil => simp [sortDescBy]
  | cons x xs ih => simp [sortDescBy, mem_insertDescBy, ih]

lemma mem_of_mem_dedupByItemId (l : List RankedEntry) (seen : List String)
    (e : RankedEntry) : e ∈ dedupByItemId l seen → e ∈ l := by
  induction l generalizing seen with
  | nil => simp [dedupByItemId]
  | cons x xs ih =>
      intro h
      by_cases hs : x.item_id ∈ seen
      · simp only [dedupByItemId, if_pos hs] at h
        exact List.mem_cons_of_mem _ (ih _ h)
      · simp only [dedupByItemId, if_neg hs] at h
        rcases List.mem_cons.mp h with rfl | h'
        · exact List.mem_cons_self _ _
        · exact List.mem_cons_of_mem _ (ih _ h')

lemma mem_of_mem_feedPage (limit : ℕ) (ranked : List RankedEntry) (e : RankedEntry)
    (h : e ∈ feedPage limit ranked) : e ∈ ranked :=
  (mem_sortDescBy _ _ _).mp
    (mem_of_mem_dedupByItemId _ _ _ (List.mem_of_mem_take h))

lemma mem_feedRankedEntries (similarity_scores : List (String × ℝ)) (recs : RecStore)
    (viewer_username : String) (now : ℝ) (candidates : List FeedCandidate)
    (e : RankedEntry)
    (h : e ∈ feedRankedEntries similarity_scores recs viewer_username now candidates) :
    ∃ c ∈ candidates, e.item = ⟨c.repo, c.author_username, false⟩ ∧
      e.item_type = c.item_type ∧ e.item_id = c.item_id := by
  unfold feedRankedEntries at h
  rcases List.mem_filterMap.mp h with ⟨c, hc, hmap⟩
  refine ⟨c, hc, ?_⟩
  rcases hlk : similarity_scores.lookup c.item_id with _ | sim
  · rw [hlk] at hmap; cases hmap
  · rw [hlk] at hmap
    simp only at hmap
    have := Option.some.inj hmap
    subst this
    exact ⟨rfl, rfl, rfl⟩

lemma iter_highlight_excludes_viewer (parseTs : String → Option ℚ)
    (viewer_username : String) (rows : List HighlightRow) (c : FeedCandidate)
    (h : c ∈ iter_highlight_repo_candidates parseTs viewer_username rows) :
    c.item_id = c.repo.id ∧
    (pyContainsSlash c.repo.id = true →
      pyLower (pySplitHead c.repo.id) ≠ pyLower viewer_username) := by
  unfold iter_highlight_repo_candidates at h
  rcases List.mem_filterMap.mp h with ⟨kc, _, hmap⟩
  rcases hsel : select_best_repo_candidate kc.2 kc.1.1 with _ | ⟨repo, row⟩
  · rw [hsel] at hmap; cases hmap
  · rw [hsel] at hmap
    simp only at hmap
    by_cases hguard : pyContainsSlash repo.id = true ∧
        pyLower (pySplitHead repo.id) = pyLower viewer_username
    · rw [if_pos hguard] at hmap; cases hmap
    · rw [if_neg hguard] at hmap
      rcases hts : pyOrOptStr repo.pushed_at repo.updated_at with _ | ts_str
      · rw [hts] at hmap; cases hmap
      · rw [hts] at hmap
        simp only at hmap
        rcases hp : parseTs ts_str with _ | ts
        · rw [hp] at hmap; cases hmap
        · rw [hp] at hmap
          simp only at hmap
          have := Option.some.inj hmap
          subst this
          exact ⟨rfl, fun hcontains heq => hguard ⟨hcontains, heq⟩⟩

/-! ## C10 -/

/-- C10 counterexample: the claim "the community feed never contains an
item whose id's owner part (before `'/'`) equals the viewer's username
case-insensitively" is false as stated. A highlighted repo whose id
`"ALICE"` contains no `'/'` is not excluded by the candidate iteration
guard (which only fires when the id contains `'/'`), yet the part of
`"ALICE"` before `'/'` is `"ALICE"`, which equals viewer `"alice"`
case-insensitively. -/
theorem build_feed_embeddings_viewer_owned_counterexample :
    (⟨{ id := "ALICE", name := "x", pushed_at := some "t" }, "bob", false⟩ :
        ForYouRepoItem) ∈
      (build_feed_embeddings (fun _ => some 0)
        [⟨"bob", "x", some { id := "ALICE", name := "x", pushed_at := some "t" }, {}⟩]
        [("ALICE", 1)] (fun _ _ _ => none) "alice" 30 0).items ∧
    pyLower (pySplitHead "ALICE") = pyLower "alice" := by
  constructor
  · decide
  · decide

/-- C10 amended: every item served by the embedding-based community feed
build whose repo id contains `'/'` has an owner part (before the first
`'/'`) that differs case-insensitively from the viewer's username,
because the candidate iteration excludes viewer-owned ids; ids without a
`'/'` are not subject to the exclusion. -/
theorem build_feed_embeddings_excludes_viewer_owned (parseTs : String → Option ℚ)
    (rows : List HighlightRow) (similarity_scores : List (String × ℝ))
    (recs : RecStore) (viewer_username : String) (limit : ℕ) (now : ℝ) :
    ((build_feed_embeddings parseTs rows similarity_scores recs viewer_username
        limit now).items.all fun it =>
      !(pyContainsSlash it.repo.id) ||
        !(pyLower (pySplitHead it.repo.id) == pyLower viewer_username)) = true := by
  rw [List.all_eq_true]
  intro it hit
  simp only [build_feed_embeddings] at hit
  by_cases h1 : (iter_highlight_repo_candidates parseTs viewer_username rows).isEmpty
  · simp [h1] at hit
  · by_cases h2 : similarity_scores.isEmpty
    · simp [h1, h2] at hit
    · simp only [h1, h2, Bool.false_eq_true, if_false] at hit
      by_cases h3 : ((feedPage limit (feedRankedEntries similarity_scores recs
          viewer_username now (iter_highlight_repo_candidates parseTs
            viewer_username rows))).map (fun e => e.item)).isEmpty
      · rw [if_pos h3] at hit
        rw [List.isEmpty_iff.mp h3] at hit
        cases hit
      · rw [if_neg h3] at hit
        simp only at hit
        rcases List.mem_map.mp hit with ⟨e, he, heq⟩
        rcases mem_feedRankedEntries _ _ _ _ _ _
            (mem_of_mem_feedPage _ _ _ he) with ⟨c, hc, hitem, -, -⟩
        rcases iter_highlight_excludes_viewer _ _ _ _ hc with ⟨-, hown⟩
        have hrepo : it.repo = c.repo := by rw [← heq, hitem]
        rw [hrepo]
        rcases hcontains : pyContainsSlash c.repo.id with _ | _
        · simp
        · simp only [Bool.not_true, Bool.false_or, Bool.not_eq_true', beq_eq_false_iff_ne,
            ne_eq]
          exact hown hcontains

/-! ## Helper lemmas: the embedding batch machine -/

section EmbedLemmas

variable {α : Type} (now : ℝ) (kind stype : String)

/-- A fold step that (apart from ghost state) upserts exactly one work-item
key: the key of its entry. All three per-batch loops of `processBatch`
have this shape. -/
def SetsOwnKey (g : EmbedState → α → EmbedState) (ridOf statusOf : α → String)
    (outOf : α → Option EmbedOutput) : Prop :=
  ∀ s a, (g s a).work =
    set_work_status s.work now kind stype (ridOf a) (statusOf a) (outOf a)

variable {g : EmbedState → α → EmbedState} {ridOf statusOf : α → String}
  {outOf : α → Option EmbedOutput}

lemma step_work_frame (hg : SetsOwnKey now kind stype g ridOf statusOf outOf)
    (s : EmbedState) (a : α) (k : WorkKey) (hk : k ≠ (kind, stype, ridOf a)) :
    (g s a).work k = s.work k := by
  rw [hg s a]
  unfold set_work_status
  rw [if_neg hk]

lemma foldl_work_frame (hg : SetsOwnKey now kind stype g ridOf statusOf outOf)
    (L : List α) (st : EmbedState) (k : WorkKey)
    (hk : ∀ a ∈ L, k ≠ (kind, stype, ridOf a)) :
    (L.foldl g st).work k = st.work k := by
  induction L generalizing st with
  | nil => rfl
  | cons a as ih =>
      rw [List.foldl_cons,
        ih _ (fun a' ha' => hk a' (List.mem_cons_of_mem _ ha')),
        step_work_frame now kind stype hg st a k (hk a (List.mem_cons_self _ _))]

lemma foldl_work_result (hg : SetsOwnKey now kind stype g ridOf statusOf outOf)
    (L : List α) (st : EmbedState) (a : α) (ha : a ∈ L)
    (hnd : (L.map ridOf).Nodup) (hsome : (outOf a).isSome) :
    ∃ wi, (L.foldl g st).work (kind, stype, ridOf a) = some wi ∧
      wi.status = statusOf a ∧ wi.output = outOf a := by
  induction L generalizing st with
  | nil => cases ha
  | cons x xs ih =>
      rw [List.foldl_cons]
      rw [List.map_cons, List.nodup_cons] at hnd
      by_cases hx : ridOf a = ridOf x
      · have hax : a = x := by
          rcases List.mem_cons.mp ha with rfl | hmem
          · rfl
          · exact absurd (by rw [← hx]; exact List.mem_map_of_mem ridOf hmem) hnd.1
        subst hax
        have hframe : (xs.foldl g (g st a)).work (kind, stype, ridOf a) =
            (g st a).work (kind, stype, ridOf a) := by
          refine foldl_work_frame now kind stype hg xs (g st a) _ ?_
          intro a' ha' hkey
          have h2 : ridOf a = ridOf a' := by
            have := congrArg (fun p : WorkKey => p.2.2) hkey
            simpa using this
          exact hnd.1 (by rw [h2]; exact List.mem_map_of_mem ridOf ha')
        rw [hframe, hg st a]
        rcases hv : outOf a with _ | v
        · rw [hv] at hsome; cases hsome
        · cases hst : st.work (kind, stype, ridOf a) with
          | none =>
              refine ⟨⟨statusOf a, some v,
                if statusOf a = "succeeded" then some now else none⟩,
                ?_, rfl, rfl⟩
              simp [set_work_status, hst]
          | some old =>
              refine ⟨⟨statusOf a, some v,
                (if statusOf a = "succeeded" then some now else none).orElse
                  (fun _ => old.processed_at)⟩,
                ?_, rfl, rfl⟩
              simp [set_work_status, hst, Option.orElse]
      · have hmem : a ∈ xs := by
          rcases List.mem_cons.mp ha with rfl | hmem
          · exact absurd rfl hx
          · exact hmem
        exact ih (g st x) hmem hnd.2
end EmbedLemmas

lemma chunks20Fuel_irrel :
    ∀ (n m : ℕ) (l : List α), l.length ≤ n → l.length ≤ m →
      chunks20Fuel n l = chunks20Fuel m l := by
  intro n
  induction n with
  | zero =>
      intro m l h1 _
      have : l = [] := List.length_eq_zero.mp (Nat.le_zero.mp h1)
      subst this
      cases m <;> rfl
  | succ n ih =>
      intro m l h1 h2
      cases l with
      | nil => cases m <;> rfl
      | cons x xs =>
          cases m with
          | zero => simp at h2
          | succ m =>
              simp only [chunks20Fuel]
              congr 1
              refine ih m (xs.drop 19) ?_ ?_ <;>
                simp only [List.length_drop] <;> simp at h1 h2 <;> omega

lemma chunks20_cons (x : α) (xs : List α) :
    chunks20 (x :: xs) = (x :: xs.take 19) :: chunks20 (xs.drop 19) := by
  show chunks20Fuel (xs.length + 1) (x :: xs) = _
  simp only [chunks20Fuel]
  congr 1
  exact chunks20Fuel_irrel xs.length (xs.drop 19).length (xs.drop 19)
    (by simp only [List.length_drop]; omega) le_rfl

lemma chunks20_flatten (l : List α) : (chunks20 l).flatten = l := by
  suffices h : ∀ n (l : List α), l.length ≤ n → (chunks20 l).flatten = l from
    h l.length l le_rfl
  intro n
  induction n with
  | zero =>
      intro l hl
      have : l = [] := List.length_eq_zero.mp (Nat.le_zero.mp hl)
      subst this
      rfl
  | succ n ih =>
      intro l hl
      cases l with
      | nil => rfl
      | cons x xs =>
          rw [chunks20_cons, List.flatten_cons]
          rw [ih (xs.drop 19) (by simp only [List.length_drop]; simp at hl; omega)]
          simp [List.take_append_drop]

lemma countP_batches_zero (bs : List (List α)) (p : α → Bool)
    (h : (bs.map (List.countP p)).sum = 0) :
    bs.countP (fun b => b.any p) = 0 := by
  induction bs with
  | nil => rfl
  | cons b rest ih =>
      rw [List.map_cons, List.sum_cons] at h
      have hb : b.countP p = 0 := by omega
      have hrest : (rest.map (List.countP p)).sum = 0 := by omega
      have hany : b.any p = false := by
        rw [List.any_eq_false]
        exact fun x hx => (List.countP_eq_zero.mp hb) x hx
      rw [List.countP_cons, ih hrest, hany]
      rfl

lemma countP_batches_one (bs : List (List α)) (p : α → Bool)
    (h : (bs.map (List.countP p)).sum = 1) :
    bs.countP (fun b => b.any p) = 1 := by
  induction bs with
  | nil => cases h
  | cons b rest ih =>
      rw [List.map_cons, List.sum_cons] at h
      cases hcb : b.countP p with
      | zero =>
          have hrest : (rest.map (List.countP p)).sum = 1 := by omega
          have hany : b.any p = false := by
            rw [List.any_eq_false]
            exact fun x hx => (List.countP_eq_zero.mp hcb) x hx
          rw [List.countP_cons, ih hrest, hany]
          rfl
      | succ k =>
          have hk : k = 0 := by omega
          have hrest : (rest.map (List.countP p)).sum = 0 := by omega
          have hany : b.any p = true := by
            rw [List.any_eq_true]
            have : 0 < b.countP p := by omega
            rcases List.countP_pos.mp this with ⟨x, hx, hpx⟩
            exact ⟨x, hx, hpx⟩
          rw [List.countP_cons, countP_batches_zero rest p hrest, hany]
          rfl

lemma countP_rid_eq_one (l : List EmbedEntry) (rid : String)
    (hnd : (l.map (fun x => x.rid)).Nodup)
    (hmem : rid ∈ l.map (fun x => x.rid)) :
    l.countP (fun x => x.rid == rid) = 1 := by
  induction l with
  | nil => cases hmem
  | cons x xs ih =>
      rw [List.map_cons, List.nodup_cons] at hnd
      rw [List.countP_cons]
      rcases List.mem_cons.mp hmem with heq | hmem'
      · have hx : x.rid = rid := by rw [heq]
        have hnot : xs.countP (fun y => y.rid == rid) = 0 := by
          rw [List.countP_eq_zero]
          intro y hy hb
          apply hnd.1
          rw [hx, ← beq_iff_eq.mp hb]
          exact List.mem_map_of_mem _ hy
        simp [hnot, hx]
      · have hne : ¬(x.rid == rid) = true := by
          rw [beq_iff_eq]
          intro hx
          exact hnd.1 (hx ▸ hmem')
        rw [ih hnd.2 hmem']
        simp [hne]

lemma countP_rid_eq_zero (l : List EmbedEntry) (rid : String)
    (h : ∀ e ∈ l, e.rid ≠ rid) :
    l.countP (fun x => x.rid == rid) = 0 := by
  rw [List.countP_eq_zero]
  intro e he hb
  exact h e he (beq_iff_eq.mp hb)

lemma collectToEmbed_rids_sublist (sha256 : String → String) (st : EmbedState)
    (kind stype : String) (repo_ids : List String) :
    ((collectToEmbed sha256 st kind stype repo_ids).map (fun e => e.rid)).Sublist
      repo_ids := by
  induction repo_ids with
  | nil => simp [collectToEmbed]
  | cons r rest ih =>
      rw [collectToEmbed, List.filterMap_cons]
      cases hs : st.subjects r with
      | none => exact (ih : _).cons r
      | some repo =>
          by_cases hh : embedCacheHit st.work kind stype r
              (sha256 (format_repo_for_embedding repo)) = true
          · simp only [hh, if_true]
            exact (ih : _).cons r
          · simp only [hh, if_false, Bool.false_eq_true, List.map_cons]
            exact (ih : _).cons₂ r

lemma collectToEmbed_rids_nodup (sha256 : String → String) (st : EmbedState)
    (kind stype : String) (repo_ids : List String) (hnd : repo_ids.Nodup) :
    ((collectToEmbed sha256 st kind stype repo_ids).map (fun e => e.rid)).Nodup :=
  hnd.sublist (collectToEmbed_rids_sublist sha256 st kind stype repo_ids)

lemma mem_collectToEmbed_of_miss (sha256 : String → String) (st : EmbedState)
    (kind stype : String) (repo_ids : List String) (rid : String) (repo : RepoSubject)
    (hrid : rid ∈ repo_ids) (hsub : st.subjects rid = some repo)
    (hmiss : embedCacheHit st.work kind stype rid
      (sha256 (format_repo_for_embedding repo)) = false) :
    (⟨rid, format_repo_for_embedding repo,
        sha256 (format_repo_for_embedding repo)⟩ : EmbedEntry) ∈
      collectToEmbed sha256 st kind stype repo_ids := by
  refine List.mem_filterMap.mpr ⟨rid, hrid, ?_⟩
  rw [hsub]
  simp only [hmiss, Bool.false_eq_true, if_false]

lemma collectToEmbed_entry_src (sha256 : String → String) (st : EmbedState)
    (kind stype : String) (repo_ids : List String) (e : EmbedEntry)
    (he : e ∈ collectToEmbed sha256 st kind stype repo_ids) :
    ∃ repo, st.subjects e.rid = some repo ∧
      e.content = format_repo_for_embedding repo ∧
      e.chash = sha256 (format_repo_for_embedding repo) ∧
      embedCacheHit st.work kind stype e.rid
        (sha256 (format_repo_for_embedding repo)) = false := by
  rcases List.mem_filterMap.mp he with ⟨r, _, hf⟩
  cases hs : st.subjects r with
  | none => rw [hs] at hf; cases hf
  | some repo =>
      rw [hs] at hf
      simp only at hf
      by_cases hh : embedCacheHit st.work kind stype r
          (sha256 (format_repo_for_embedding repo)) = true
      · rw [if_pos hh] at hf; cases hf
      · rw [if_neg hh] at hf
        have he' := Option.some.inj hf
        subst he'
        exact ⟨repo, hs, rfl, rfl, Bool.not_eq_true _ ▸ hh⟩

lemma collectToEmbed_no_rid_of_hit (sha256 : String → String) (st : EmbedState)
    (kind stype : String) (repo_ids : List String) (rid : String) (repo : RepoSubject)
    (hsub : st.subjects rid = some repo)
    (hhit : embedCacheHit st.work kind stype rid
      (sha256 (format_repo_for_embedding repo)) = true) :
    ∀ e ∈ collectToEmbed sha256 st kind stype repo_ids, e.rid ≠ rid := by
  intro e he heq
  rcases collectToEmbed_entry_src sha256 st kind stype repo_ids e he with
    ⟨repo', hsub', -, -, hmiss⟩
  rw [heq] at hsub' hmiss
  rw [hsub] at hsub'
  have := Option.some.inj hsub'
  subst this
  rw [hhit] at hmiss
  cases hmiss

lemma mem_zip_left_of_length_eq :
    ∀ (l₁ : List α) (l₂ : List β), l₂.length = l₁.length →
      ∀ a ∈ l₁, ∃ b, (a, b) ∈ l₁.zip l₂ := by
  intro l₁
  induction l₁ with
  | nil => intro l₂ _ a ha; cases ha
  | cons x xs ih =>
      intro l₂ hlen a ha
      cases l₂ with
      | nil => cases hlen
      | cons y ys =>
          rcases List.mem_cons.mp ha with rfl | ha'
          · exact ⟨y, by simp⟩
          · rcases ih ys (by simpa using hlen) a ha' with ⟨b, hb⟩
            exact ⟨b, List.mem_cons_of_mem _ hb⟩

lemma processBatch_work_frame (provider : List String → Except String (List (List ℚ)))
    (now : ℝ) (kind stype : String) (st : EmbedState) (batch : List EmbedEntry)
    (k : WorkKey) (hk : ∀ e ∈ batch, k ≠ (kind, stype, e.rid)) :
    (processBatch provider now kind stype st batch).work k = st.work k := by
  unfold processBatch
  cases hp : provider (batch.map fun e => e.content) with
  | error err =>
      rw [@foldl_work_frame EmbedEntry now kind stype
        (fun s e => recordSetWork now kind stype e.rid "failed"
          (some (.failure ("batch_api_error: " ++ err))) s)
        (fun e => e.rid) (fun _ => "failed")
        (fun _ => some (.failure ("batch_api_error: " ++ err)))
        (fun s a => rfl) batch _ k hk]
      exact @foldl_work_frame EmbedEntry now kind stype
        (fun s e => recordSetWork now kind stype e.rid "running" none s)
        (fun e => e.rid) (fun _ => "running") (fun _ => none)
        (fun s a => rfl) batch st k hk
  | ok vs =>
      rw [@foldl_work_frame (EmbedEntry × List ℚ) now kind stype
        (fun s p => recordSetWork now kind stype p.1.rid "succeeded"
          (some (.success p.1.chash p.2.length))
          { s with embeddings := fun r => if r = p.1.rid then some p.2
              else s.embeddings r })
        (fun p => p.1.rid) (fun _ => "succeeded")
        (fun p => some (.success p.1.chash p.2.length))
        (fun s a => rfl) (batch.zip vs) _ k
        (fun p hp' => hk p.1 (List.of_mem_zip hp').1)]
      exact @foldl_work_frame EmbedEntry now kind stype
        (fun s e => recordSetWork now kind stype e.rid "running" none s)
        (fun e => e.rid) (fun _ => "running") (fun _ => none)
        (fun s a => rfl) batch st k hk

lemma processBatch_failed (provider : List String → Except String (List (List ℚ)))
    (now : ℝ) (kind stype : String) (st : EmbedState) (batch : List EmbedEntry)
    (err : String) (e : EmbedEntry) (he : e ∈ batch)
    (hnd : (batch.map (fun x => x.rid)).Nodup)
    (hp : provider (batch.map fun x => x.content) = .error err) :
    ∃ wi, (processBatch provider now kind stype st batch).work
        (kind, stype, e.rid) = some wi ∧
      wi.status = "failed" ∧
      wi.output = some (.failure ("batch_api_error: " ++ err)) := by
  unfold processBatch
  rw [hp]
  exact @foldl_work_result EmbedEntry now kind stype
    (fun s x => recordSetWork now kind stype x.rid "failed"
      (some (.failure ("batch_api_error: " ++ err))) s)
    (fun x => x.rid) (fun _ => "failed")
    (fun _ => some (.failure ("batch_api_error: " ++ err)))
    (fun s a => rfl) batch _ e he hnd rfl

lemma processBatch_succeeded (provider : List String → Except String (List (List ℚ)))
    (now : ℝ) (kind stype : String) (st : EmbedState) (batch : List EmbedEntry)
    (vs : List (List ℚ)) (e : EmbedEntry) (he : e ∈ batch)
    (hnd : (batch.map (fun x => x.rid)).Nodup)
    (hp : provider (batch.map fun x => x.content) = .ok vs)
    (hlen : vs.length = batch.length) :
    ∃ wi dim, (processBatch provider now kind stype st batch).work
        (kind, stype, e.rid) = some wi ∧
      wi.status = "succeeded" ∧
      wi.output = some (.success e.chash dim) := by
  unfold processBatch
  rw [hp]
  obtain ⟨v, hv⟩ := mem_zip_left_of_length_eq batch vs hlen e he
  have hnd' : ((batch.zip vs).map (fun p => p.1.rid)).Nodup := by
    have hfst : (batch.zip vs).map Prod.fst = batch :=
      List.map_fst_zip batch vs (le_of_eq hlen.symm)
    have : (batch.zip vs).map (fun p => p.1.rid) =
        ((batch.zip vs).map Prod.fst).map (fun x => x.rid) := by
      rw [List.map_map]
      rfl
    rw [this, hfst]
    exact hnd
  obtain ⟨wi, hwi, hstat, hout⟩ := @foldl_work_result (EmbedEntry × List ℚ)
    now kind stype
    (fun s p => recordSetWork now kind stype p.1.rid "succeeded"
      (some (.success p.1.chash p.2.length))
      { s with embeddings := fun r => if r = p.1.rid then some p.2
          else s.embeddings r })
    (fun p => p.1.rid) (fun _ => "succeeded")
    (fun p => some (.success p.1.chash p.2.length))
    (fun s a => rfl) (batch.zip vs) _ (e, v) hv hnd' rfl
  exact ⟨wi, v.length, hwi, hstat, hout⟩

lemma foldl_processBatch_frame (provider : List String → Except String (List (List ℚ)))
    (now : ℝ) (kind stype : String) (bs : List (List EmbedEntry)) (st : EmbedState)
    (k : WorkKey) (hk : ∀ b ∈ bs, ∀ e ∈ b, k ≠ (kind, stype, e.rid)) :
    (bs.foldl (processBatch provider now kind stype) st).work k = st.work k := by
  induction bs generalizing st with
  | nil => rfl
  | cons b rest ih =>
      rw [List.foldl_cons,
        ih _ (fun b' hb' => hk b' (List.mem_cons_of_mem _ hb')),
        processBatch_work_frame provider now kind stype st b k
          (hk b (List.mem_cons_self _ _))]

lemma run_work_of_processBatch (provider : List String → Except String (List (List ℚ)))
    (now : ℝ) (kind stype : String) (bs : List (List EmbedEntry)) (st : EmbedState)
    (b : List EmbedEntry) (e : EmbedEntry) (P : WorkItem EmbedOutput → Prop)
    (hb : b ∈ bs) (he : e ∈ b)
    (hnd : ((bs.flatten).map (fun x => x.rid)).Nodup)
    (hP : ∀ s, ∃ wi, (processBatch provider now kind stype s b).work
      (kind, stype, e.rid) = some wi ∧ P wi) :
    ∃ wi, (bs.foldl (processBatch provider now kind stype) st).work
      (kind, stype, e.rid) = some wi ∧ P wi := by
  induction bs generalizing st with
  | nil => cases hb
  | cons b0 rest ih =>
      rw [List.flatten_cons, List.map_append, List.nodup_append] at hnd
      rw [List.foldl_cons]
      by_cases hb0 : b = b0
      · subst hb0
        have hframe : (rest.foldl (processBatch provider now kind stype)
            (processBatch provider now kind stype st b)).work (kind, stype, e.rid) =
            (processBatch provider now kind stype st b).work (kind, stype, e.rid) := by
          refine foldl_processBatch_frame provider now kind stype rest _ _ ?_
          intro b' hb' x hx hkey
          have hxr : e.rid = x.rid := by
            have := congrArg (fun p : WorkKey => p.2.2) hkey
            simpa using this
          refine hnd.2.2 (List.mem_map_of_mem _ he) ?_
          rw [hxr]
          exact List.mem_map_of_mem _ (List.mem_flatten.mpr ⟨b', hb', hx⟩)
        rw [hframe]
        exact hP st
      · have hbrest : b ∈ rest := by
          rcases List.mem_cons.mp hb with h | h
          · exact absurd h hb0
          · exact h
        have hfr : (processBatch provider now kind stype st b0).work
            (kind, stype, e.rid) = st.work (kind, stype, e.rid) := by
          refine processBatch_work_frame provider now kind stype st b0 _ ?_
          intro x hx hkey
          have hxr : e.rid = x.rid := by
            have := congrArg (fun p : WorkKey => p.2.2) hkey
            simpa using this
          refine hnd.2.2 (List.mem_map_of_mem _ hx) ?_
          rw [← hxr]
          exact List.mem_map_of_mem _ (List.mem_flatten.mpr ⟨b, hbrest, he⟩)
        exact ih _ hbrest hnd.2.1

lemma foldl_trace_src {α : Type} (now : ℝ) (kind stype : String)
    (g : EmbedState → α → EmbedState) (ridOf statusOf : α → String)
    (htr : ∀ s a, (g s a).trace = s.trace ++ [((kind, stype, ridOf a), statusOf a)])
    (L : List α) (st : EmbedState) (ev : WorkKey × String)
    (hev : ev ∈ (L.foldl g st).trace) :
    ev ∈ st.trace ∨ ∃ a ∈ L, ev.1 = (kind, stype, ridOf a) := by
  induction L generalizing st with
  | nil => exact Or.inl hev
  | cons x xs ih =>
      rw [List.foldl_cons] at hev
      rcases ih (g st x) hev with h | ⟨a, ha, hk⟩
      · rw [htr st x] at h
        rcases List.mem_append.mp h with h' | h'
        · exact Or.inl h'
        · have hx : ev = ((kind, stype, ridOf x), statusOf x) := by simpa using h'
          exact Or.inr ⟨x, List.mem_cons_self _ _, by rw [hx]⟩
      · exact Or.inr ⟨a, List.mem_cons_of_mem _ ha, hk⟩

lemma processBatch_trace_src (provider : List String → Except String (List (List ℚ)))
    (now : ℝ) (kind stype : String) (st : EmbedState) (batch : List EmbedEntry)
    (ev : WorkKey × String)
    (hev : ev ∈ (processBatch provider now kind stype st batch).trace) :
    ev ∈ st.trace ∨ ∃ e ∈ batch, ev.1 = (kind, stype, e.rid) := by
  unfold processBatch at hev
  cases hp : provider (batch.map fun e => e.content) with
  | error err =>
      rw [hp] at hev
      simp only at hev
      rcases @foldl_trace_src EmbedEntry now kind stype
        (fun s e => recordSetWork now kind stype e.rid "failed"
          (some (.failure ("batch_api_error: " ++ err))) s)
        (fun e => e.rid) (fun _ => "failed") (fun s a => rfl) batch _ ev hev with
        h | ⟨a, ha, hk⟩
      · rcases @foldl_trace_src EmbedEntry now kind stype
          (fun s e => recordSetWork now kind stype e.rid "running" none s)
          (fun e => e.rid) (fun _ => "running") (fun s a => rfl) batch st ev h with
          h' | ⟨a, ha, hk⟩
        · exact Or.inl h'
        · exact Or.inr ⟨a, ha, hk⟩
      · exact Or.inr ⟨a, ha, hk⟩
  | ok vs =>
      rw [hp] at hev
      simp only at hev
      rcases @foldl_trace_src (EmbedEntry × List ℚ) now kind stype
        (fun s p => recordSetWork now kind stype p.1.rid "succeeded"
          (some (.success p.1.chash p.2.length))
          { s with embeddings := fun r => if r = p.1.rid then some p.2
              else s.embeddings r })
        (fun p => p.1.rid) (fun _ => "succeeded") (fun s a => rfl)
        (batch.zip vs) _ ev hev with h | ⟨p, hpz, hk⟩
      · rcases @foldl_trace_src EmbedEntry now kind stype
          (fun s e => recordSetWork now kind stype e.rid "running" none s)
          (fun e => e.rid) (fun _ => "running") (fun s a => rfl) batch st ev h with
          h' | ⟨a, ha, hk⟩
        · exact Or.inl h'
        · exact Or.inr ⟨a, ha, hk⟩
      · exact Or.inr ⟨p.1, (List.of_mem_zip hpz).1, hk⟩

lemma foldl_processBatch_trace_src
    (provider : List String → Except String (List (List ℚ)))
    (now : ℝ) (kind stype : String) (bs : List (List EmbedEntry)) (st : EmbedState)
    (ev : WorkKey × String)
    (hev : ev ∈ (bs.foldl (processBatch provider now kind stype) st).trace) :
    ev ∈ st.trace ∨ ∃ b ∈ bs, ∃ e ∈ b, ev.1 = (kind, stype, e.rid) := by
  induction bs generalizing st with
  | nil => exact Or.inl hev
  | cons b rest ih =>
      rw [List.foldl_cons] at hev
      rcases ih (processBatch provider now kind stype st b) hev with h | ⟨b', hb', hk⟩
      · rcases processBatch_trace_src provider now kind stype st b ev h with
          h' | ⟨e, he, hk⟩
        · exact Or.inl h'
        · exact Or.inr ⟨b, List.mem_cons_self _ _, e, he, hk⟩
      · exact Or.inr ⟨b', List.mem_cons_of_mem _ hb', hk⟩

lemma run_trace_src (sha256 : String → String)
    (provider : List String → Except String (List (List ℚ)))
    (kind stype : String) (repo_ids : List String) (now : ℝ) (st : EmbedState)
    (ev : WorkKey × String)
    (hev : ev ∈ (embed_repos_batch_generic sha256 provider kind stype repo_ids
      now st).1.trace) :
    ev ∈ st.trace ∨
      ∃ e ∈ collectToEmbed sha256 st kind stype repo_ids,
        ev.1 = (kind, stype, e.rid) := by
  unfold embed_repos_batch_generic at hev
  by_cases hemp : (collectToEmbed sha256 st kind stype repo_ids).isEmpty
  · rw [if_pos hemp] at hev
    exact Or.inl hev
  · rw [if_neg hemp] at hev
    simp only at hev
    rcases foldl_processBatch_trace_src provider now kind stype
      (chunks20 (collectToEmbed sha256 st kind stype repo_ids)) st ev hev with
      h | ⟨b, hb, e, he, hk⟩
    · exact Or.inl h
    · refine Or.inr ⟨e, ?_, hk⟩
      rw [← chunks20_flatten (collectToEmbed sha256 st kind stype repo_ids)]
      exact List.mem_flatten.mpr ⟨b, hb, he⟩

lemma batch_rids_nodup_of_mem_chunks (toE : List EmbedEntry)
    (hndE : (toE.map (fun x => x.rid)).Nodup) (b : List EmbedEntry)
    (hb : b ∈ chunks20 toE) : (b.map (fun x => x.rid)).Nodup := by
  have h1 : b.Sublist (chunks20 toE).flatten := List.sublist_flatten_of_mem hb
  rw [chunks20_flatten] at h1
  exact hndE.sublist (h1.map _)

/-! ## C3 -/

/-- C3: content-hash gating of the embedding stage. For a subject present
in the store, with distinct `repo_ids` and a provider that answers every
batch (one vector per text, as `get_embeddings_batch` guarantees): if the
stored content hash of a prior successful run equals the SHA-256 of the
subject's current formatted text (a cache hit), the subject is put in no
provider batch and its work item is untouched; otherwise the subject is
put in exactly one provider batch, and its work item ends `succeeded`
with the stored hash updated to the hash of the current text. -/
theorem embed_content_hash_gating (sha256 : String → String)
    (provider : List String → Except String (List (List ℚ)))
    (kind stype : String) (repo_ids : List String) (now : ℝ) (st : EmbedState)
    (rid : String) (repo : RepoSubject)
    (hnd : repo_ids.Nodup) (hrid : rid ∈ repo_ids)
    (hsub : st.subjects rid = some repo)
    (hprov : ∀ ts, ∃ vs, provider ts = Except.ok vs ∧ vs.length = ts.length) :
    (embedCacheHit st.work kind stype rid
        (sha256 (format_repo_for_embedding repo)) = true →
      (embed_repos_batch_generic sha256 provider kind stype repo_ids now st).2.countP
          (fun b => b.any (fun e => e.rid == rid)) = 0 ∧
      (embed_repos_batch_generic sha256 provider kind stype repo_ids now st).1.work
          (kind, stype, rid) = st.work (kind, stype, rid)) ∧
    (embedCacheHit st.work kind stype rid
        (sha256 (format_repo_for_embedding repo)) = false →
      (embed_repos_batch_generic sha256 provider kind stype repo_ids now st).2.countP
          (fun b => b.any (fun e => e.rid == rid)) = 1 ∧
      ∃ wi dim,
        (embed_repos_batch_generic sha256 provider kind stype repo_ids now st).1.work
          (kind, stype, rid) = some wi ∧ wi.status = "succeeded" ∧
        wi.output = some (.success (sha256 (format_repo_for_embedding repo)) dim)) := by
  constructor
  · intro hhit
    have hnone := collectToEmbed_no_rid_of_hit sha256 st kind stype repo_ids rid repo
      hsub hhit
    unfold embed_repos_batch_generic
    by_cases hemp : (collectToEmbed sha256 st kind stype repo_ids).isEmpty
    · rw [if_pos hemp]
      exact ⟨rfl, rfl⟩
    · rw [if_neg hemp]
      simp only
      constructor
      · apply countP_batches_zero
        rw [← List.countP_flatten, chunks20_flatten]
        exact countP_rid_eq_zero _ _ hnone
      · apply foldl_processBatch_frame
        intro b hb e he hkey
        have hmemE : e ∈ collectToEmbed sha256 st kind stype repo_ids := by
          rw [← chunks20_flatten (collectToEmbed sha256 st kind stype repo_ids)]
          exact List.mem_flatten.mpr ⟨b, hb, he⟩
        have hr : rid = e.rid := by
          have := congrArg (fun p : WorkKey => p.2.2) hkey
          simpa using this
        exact hnone e hmemE hr.symm
  · intro hmiss
    have hmem := mem_collectToEmbed_of_miss sha256 st kind stype repo_ids rid repo
      hrid hsub hmiss
    have hndE := collectToEmbed_rids_nodup sha256 st kind stype repo_ids hnd
    have hemp : ¬(collectToEmbed sha256 st kind stype repo_ids).isEmpty = true := by
      rcases hL : collectToEmbed sha256 st kind stype repo_ids with _ | ⟨x, xs⟩
      · rw [hL] at hmem; cases hmem
      · simp
    unfold embed_repos_batch_generic
    rw [if_neg hemp]
    simp only
    constructor
    · apply countP_batches_one
      rw [← List.countP_flatten, chunks20_flatten]
      refine countP_rid_eq_one _ rid hndE ?_
      exact List.mem_map.mpr ⟨_, hmem, rfl⟩
    · obtain ⟨b, hb, heb⟩ : ∃ b ∈ chunks20 (collectToEmbed sha256 st kind stype repo_ids),
          (⟨rid, format_repo_for_embedding repo,
            sha256 (format_repo_for_embedding repo)⟩ : EmbedEntry) ∈ b := by
        apply List.mem_flatten.mp
        rw [chunks20_flatten]
        exact hmem
      have hndflat : (((chunks20 (collectToEmbed sha256 st kind stype
          repo_ids)).flatten).map (fun x => x.rid)).Nodup := by
        rw [chunks20_flatten]
        exact hndE
      have hPs : ∀ s, ∃ wi, (processBatch provider now kind stype s b).work
          (kind, stype, rid) = some wi ∧ wi.status = "succeeded" ∧ ∃ dim,
          wi.output = some (.success (sha256 (format_repo_for_embedding repo)) dim) := by
        intro s
        have hndb := batch_rids_nodup_of_mem_chunks _ hndE b hb
        obtain ⟨vs, hvs, hlen⟩ := hprov (b.map fun x => x.content)
        obtain ⟨wi, dim, h1, h2, h3⟩ := processBatch_succeeded provider now kind stype
          s b vs _ heb hndb hvs (by rw [hlen, List.length_map])
        exact ⟨wi, h1, h2, dim, h3⟩
      obtain ⟨wi, hwi, hP⟩ := run_work_of_processBatch provider now kind stype
        (chunks20 (collectToEmbed sha256 st kind stype repo_ids)) st b
        ⟨rid, format_repo_for_embedding repo, sha256 (format_repo_for_embedding repo)⟩
        (fun wi => wi.status = "succeeded" ∧ ∃ dim,
          wi.output = some (.success (sha256 (format_repo_for_embedding repo)) dim))
        hb heb hndflat hPs
      rcases hP with ⟨hstat, dim, hout⟩
      exact ⟨wi, dim, hwi, hstat, hout⟩

/-- Witness for C3 at `embedStaleState` (stored hash `"OLD"`, current
hash `"x"`): the cache-miss branch applies. -/
theorem embed_content_hash_gating_witness :
    (embedCacheHit embedStaleState.work "embed_repo" "repo" "r"
        (hashId (format_repo_for_embedding { id := "r", name := "x" })) = true →
      (embed_repos_batch_generic hashId okProvider "embed_repo" "repo" ["r"] 0
          embedStaleState).2.countP (fun b => b.any (fun e => e.rid == "r")) = 0 ∧
      (embed_repos_batch_generic hashId okProvider "embed_repo" "repo" ["r"] 0
          embedStaleState).1.work ("embed_repo", "repo", "r") =
        embedStaleState.work ("embed_repo", "repo", "r")) ∧
    (embedCacheHit embedStaleState.work "embed_repo" "repo" "r"
        (hashId (format_repo_for_embedding { id := "r", name := "x" })) = false →
      (embed_repos_batch_generic hashId okProvider "embed_repo" "repo" ["r"] 0
          embedStaleState).2.countP (fun b => b.any (fun e => e.rid == "r")) = 1 ∧
      ∃ wi dim,
        (embed_repos_batch_generic hashId okProvider "embed_repo" "repo" ["r"] 0
          embedStaleState).1.work ("embed_repo", "repo", "r") = some wi ∧
        wi.status = "succeeded" ∧
        wi.output = some (.success
          (hashId (format_repo_for_embedding { id := "r", name := "x" })) dim)) :=
  embed_content_hash_gating hashId okProvider "embed_repo" "repo" ["r"] 0
    embedStaleState "r" { id := "r", name := "x" } (by decide) (by decide) (by decide)
    (fun ts => ⟨ts.map fun _ => ([0] : List ℚ), rfl, by simp⟩)

/-! ## C8 -/

/-- C8: when a provider batch call fails, every subject of that batch ends
the run marked `failed`, all with the same recorded reason naming the
error; no batch member is skipped. (`repo_ids` distinct, as the callers
pass.) -/
theorem embed_batch_failure_marks_all_failed (sha256 : String → String)
    (provider : List String → Except String (List (List ℚ)))
    (kind stype : String) (repo_ids : List String) (now : ℝ) (st : EmbedState)
    (b : List EmbedEntry) (err : String) (e : EmbedEntry)
    (hnd : repo_ids.Nodup)
    (hb : b ∈ (embed_repos_batch_generic sha256 provider kind stype repo_ids
      now st).2)
    (hfail : provider (b.map (fun x => x.content)) = .error err)
    (he : e ∈ b) :
    ∃ wi, (embed_repos_batch_generic sha256 provider kind stype repo_ids
        now st).1.work (kind, stype, e.rid) = some wi ∧
      wi.status = "failed" ∧
      wi.output = some (.failure ("batch_api_error: " ++ err)) := by
  have hndE := collectToEmbed_rids_nodup sha256 st kind stype repo_ids hnd
  unfold embed_repos_batch_generic at hb ⊢
  by_cases hemp : (collectToEmbed sha256 st kind stype repo_ids).isEmpty
  · rw [if_pos hemp] at hb
    cases hb
  · rw [if_neg hemp] at hb ⊢
    simp only at hb ⊢
    have hndflat : (((chunks20 (collectToEmbed sha256 st kind stype
        repo_ids)).flatten).map (fun x => x.rid)).Nodup := by
      rw [chunks20_flatten]
      exact hndE
    refine run_work_of_processBatch provider now kind stype _ st b e _ hb he hndflat ?_
    intro s
    exact processBatch_failed provider now kind stype s b err e he
      (batch_rids_nodup_of_mem_chunks _ hndE b hb) hfail

/-- Witness for C8: `embedStaleState` with the always-failing provider;
the single batch `[⟨"r", "x", "x"⟩]` fails and its one subject is marked
`failed` with the batch error reason. -/
theorem embed_batch_failure_marks_all_failed_witness :
    ∃ wi, (embed_repos_batch_generic hashId errProvider "embed_repo" "repo" ["r"] 0
        embedStaleState).1.work ("embed_repo", "repo", "r") = some wi ∧
      wi.status = "failed" ∧
      wi.output = some (.failure ("batch_api_error: " ++ "boom")) :=
  embed_batch_failure_marks_all_failed hashId errProvider "embed_repo" "repo" ["r"]
    0 embedStaleState [⟨"r", "x", "x"⟩] "boom" ⟨"r", "x", "x"⟩
    (by decide) (by decide) rfl (by decide)

/-! ## C9 -/

/-- C9 counterexample: the claim "no execution path moves a work item's
status backwards (in particular never from `succeeded` back to `running`)
except through an explicit reset" is false as stated. At
`embedStaleState` the `embed_repo` item of `"r"` is `succeeded`, yet
running the embedding stage — with no reset — sets it to `running`
(because the stored content hash differs from the current one), as its
ghost trace shows. -/
theorem embed_status_monotone_counterexample :
    ((embedStaleState.work ("embed_repo", "repo", "r")).map (fun wi => wi.status) =
      some "succeeded") ∧
    ((("embed_repo", "repo", "r"), "running") ∈
      (embed_repos_batch_generic hashId okProvider "embed_repo" "repo" ["r"] 0
        embedStaleState).1.trace) := by
  constructor
  · decide
  · decide

/-- C9 amended: stage executions move a work item's status backwards only
through the embedding stage's content-hash re-embedding: if an embedding
run writes `running` to the key of an initially `succeeded` work item
(without any reset), then the hash stored by the prior success
necessarily differs from the SHA-256 of the subject's current formatted
text. -/
theorem embed_backward_transition_only_on_hash_change (sha256 : String → String)
    (provider : List String → Except String (List (List ℚ)))
    (kind stype : String) (repo_ids : List String) (now : ℝ) (st : EmbedState)
    (rid : String) (repo : RepoSubject) (wi : WorkItem EmbedOutput)
    (htrace : st.trace = [])
    (hsub : st.subjects rid = some repo)
    (hwi : st.work (kind, stype, rid) = some wi)
    (hst : wi.status = "succeeded")
    (hev : ((kind, stype, rid), "running") ∈
      (embed_repos_batch_generic sha256 provider kind stype repo_ids
        now st).1.trace) :
    storedContentHash wi ≠ some (sha256 (format_repo_for_embedding repo)) := by
  intro heq
  have hhit : embedCacheHit st.work kind stype rid
      (sha256 (format_repo_for_embedding repo)) = true := by
    unfold embedCacheHit
    rw [hwi]
    simp only
    rw [hst]
    unfold storedContentHash at heq
    cases hout : wi.output with
    | none => rw [hout] at heq; cases heq
    | some out =>
        rw [hout] at heq
        simp only [Option.some_bind] at heq
        simp [heq]
  have hnone := collectToEmbed_no_rid_of_hit sha256 st kind stype repo_ids rid repo
    hsub hhit
  rcases run_trace_src sha256 provider kind stype repo_ids now st _ hev with
    h | ⟨e, he, hk⟩
  · rw [htrace] at h
    cases h
  · have hr : rid = e.rid := by
      have := congrArg (fun p : WorkKey => p.2.2) hk
      simpa using this
    exact hnone e he hr.symm

/-- Witness for the amended C9 at `embedStaleState`: the run does write
`running` to the succeeded item's key, and indeed its stored hash `"OLD"`
differs from the current hash. -/
theorem embed_backward_transition_only_on_hash_change_witness :
    storedContentHash ⟨"succeeded", some (.success "OLD" 1), some 1⟩ ≠
      some (hashId (format_repo_for_embedding { id := "r", name := "x" })) :=
  embed_backward_transition_only_on_hash_change hashId okProvider "embed_repo"
    "repo" ["r"] 0 embedStaleState "r" { id := "r", name := "x" }
    ⟨"succeeded", some (.success "OLD" 1), some 1⟩
    rfl (by decide) rfl rfl (by decide)
